import Mathlib

/-!
Verification development for `patches_and_asym_parallel/patches_fv_asym_calc.py`,
a batch pipeline that repairs PDB structure files, runs the external `ImmunoPDB.py`
annotator on them, computes molecular features, and collects per-file results with
a parallel task executor.

The embedding below is a shallow model of that script.  External collaborators
(PDBFixer, the ImmunoPDB subprocess, the propermab feature library) are modelled
by per-repeat outcome oracles; the filesystem effects the script itself performs
(temporary-file allocation, existence checks, deletion) are modelled by an explicit
`TaskState` whose `disk` field lists the temporary files currently present.
`NamedTemporaryFile`'s fresh-name supply is modelled by a counter; the generated
names carry the suffixes the source requests (".pdb" and "_immuno_output.pdb").
-/

/-- Feature values are numeric scalars in the source; the claims never inspect the
numbers themselves, so an integer carrier is used. -/
abbrev FeatVal := Int

/-- A feature mapping (Python dict from feature name to numeric value), modelled as
an association list in insertion order, mirroring Python 3 dict semantics. -/
abbrev FeatureMap := List (String × FeatVal)

/-- Python dict assignment `d[k] = v`: overwrite in place if the key exists,
otherwise append at the end. -/
def dictSet (d : FeatureMap) (k : String) (v : FeatVal) : FeatureMap :=
  if d.any (fun kv => decide (kv.1 = k)) then
    d.map (fun kv => if kv.1 = k then (k, v) else kv)
  else d ++ [(k, v)]

/-- Python `k in d` for a feature mapping. -/
def hasKey (d : FeatureMap) (k : String) : Bool :=
  d.any (fun kv => decide (kv.1 = k))

/-- Embeds `calculate_features` (source lines 51-57): the patch-feature dict is
computed by the external library (supplied here as `patch`), then the charge
asymmetry scalar `featurizer.fv_chml()` (supplied as `asym`) is stored under the
key `"charge_asym"`. -/
def calculate_features (patch : FeatureMap) (asym : FeatVal) : FeatureMap :=
  dictSet patch "charge_asym" asym

/-! ## Path utilities (pathlib `suffix`, `str.replace`, glob matching) -/

/-- Characters of the final path component (after the last slash). -/
def baseNameChars (p : String) : List Char :=
  ((p.data.reverse.takeWhile (fun c => !(c == '/'))).reverse)

/-- Index of the last dot in a character list, if any. -/
def lastDotIdx : List Char → Option Nat
  | [] => none
  | c :: cs =>
    match lastDotIdx cs with
    | some j => some (j + 1)
    | none => if c = '.' then some 0 else none

/-- Embeds pathlib's `Path.suffix`: the substring of the name from its last dot,
provided that dot is neither the first nor the last character of the name. -/
def pathSuffix (p : String) : String :=
  match lastDotIdx (baseNameChars p) with
  | some i =>
    if 0 < i ∧ i + 1 < (baseNameChars p).length then String.mk ((baseNameChars p).drop i)
    else ""
  | none => ""

/-- Embeds Python `str.replace` (all non-overlapping occurrences, left to right),
with fuel bounded by the string length so the definition is structural. -/
def replaceCharsFuel (pat rep : List Char) : Nat → List Char → List Char
  | 0, l => l
  | _ + 1, [] => []
  | fuel + 1, c :: cs =>
    if pat ≠ [] ∧ pat.isPrefixOf (c :: cs) then
      rep ++ replaceCharsFuel pat rep fuel ((c :: cs).drop pat.length)
    else c :: replaceCharsFuel pat rep fuel cs

/-- `s.replace(pat, rep)` on strings. -/
def pyReplace (s pat rep : String) : String :=
  String.mk (replaceCharsFuel pat.data rep.data s.data.length s.data)

/-- A child name matched by `glob("*.pdb")`: ends in ".pdb" and is not a hidden
(dot-initial) file, which glob skips. -/
def globPdbMatch (name : String) : Bool :=
  (".pdb".data.isSuffixOf name.data) && !(name.data.headD ' ' == '.')

/-- Joining a directory path with a child name, as the paths produced by
`Path.glob` are the directory path extended by the entry name. -/
def joinPath (dir name : String) : String := dir ++ "/" ++ name

/-! ## Input resolver -/

/-- The filesystem as the resolver sees it: directory/file tests and the
immediate children of a directory in enumeration order. -/
structure FileSystem where
  isDir : String → Bool
  isFile : String → Bool
  dirFiles : String → List String

/-- The resolver's error message (source line 35). -/
def invalidInputMsg : String :=
  "Invalid input path. Must be a PDB file or a directory containing PDB files."

/-- Embeds `get_pdb_files` (source lines 27-35): a directory yields its immediate
`*.pdb` children, a `.pdb` file yields itself, anything else raises `ValueError`
(modelled as `Except.error`). -/
def get_pdb_files (fs : FileSystem) (input_path : String) : Except String (List String) :=
  if fs.isDir input_path then
    Except.ok (((fs.dirFiles input_path).filter globPdbMatch).map (joinPath input_path))
  else if fs.isFile input_path = true ∧ pathSuffix input_path = ".pdb" then
    Except.ok [input_path]
  else
    Except.error invalidInputMsg

/-! ## Task state: temporary files, fresh names, logs -/

/-- State threaded through one per-file task: the temporary files currently on
disk, the fresh-name counter of the `NamedTemporaryFile` supply, the two append-only
logs, and a ghost trace of the pH argument of every `add_hydrogens` call. -/
structure TaskState where
  disk : List String
  fresh : Nat
  immunoLog : List String
  errorLog : List String
  phCalls : List Rat
deriving DecidableEq

/-- The state a worker starts a task in: no temporary files yet. -/
def initState : TaskState :=
  { disk := [], fresh := 0, immunoLog := [], errorLog := [], phCalls := [] }

/-- Membership test on the disk list (`os.path.exists`). -/
def listHas : List String → String → Bool
  | [], _ => false
  | q :: t, p => if q = p then true else listHas t p

/-- A file coming into existence at path `p` (no-op if already present). -/
def diskCreate (s : TaskState) (p : String) : TaskState :=
  if listHas s.disk p then s else { s with disk := s.disk ++ [p] }

/-- `os.remove(p)`. -/
def diskRemove (s : TaskState) (p : String) : TaskState :=
  { s with disk := s.disk.filter (fun q => decide (q ≠ p)) }

/-- `logging.error` / `logging.critical` (append to pdb_processing.log). -/
def logError (s : TaskState) (m : String) : TaskState :=
  { s with errorLog := s.errorLog ++ [m] }

/-- Character run used to make generated temporary names injective in the
fresh counter (stands in for the random part of `NamedTemporaryFile` names). -/
def tagL (n : Nat) : List Char := List.replicate n 'x'

/-- Characters of the nth fresh name with suffix ".pdb". -/
def fixChars (n : Nat) : List Char :=
  '/' :: 't' :: 'm' :: 'p' :: '/' :: 't' :: 'm' :: 'p' :: (tagL n ++ ['.', 'p', 'd', 'b'])

/-- The nth fresh temporary name with suffix ".pdb" (used by `add_hydrogens`). -/
def tempFixName (n : Nat) : String := String.mk (fixChars n)

/-- Characters of the nth fresh name with suffix "_immuno_output.pdb". -/
def immunoChars (n : Nat) : List Char :=
  '/' :: 't' :: 'm' :: 'p' :: '/' :: 't' :: 'm' :: 'p' ::
    (tagL n ++ ['_', 'i', 'm', 'm', 'u', 'n', 'o', '_', 'o', 'u', 't', 'p', 'u', 't', '.', 'p', 'd', 'b'])

/-- The nth fresh temporary name with suffix "_immuno_output.pdb" (used by
`run_immunopdb` when `use_temp` is truthy). -/
def tempImmunoName (n : Nat) : String := String.mk (immunoChars n)

/-! ## Structure repairer -/

/-- Embeds `add_hydrogens` (source lines 38-49).  `NamedTemporaryFile(suffix=".pdb",
delete=False)` first creates a fresh file on disk; then PDBFixer loads the input,
adds hydrogens at `pH` and the topology is written to that file.  The oracle bit
`repairOk` says whether the PDBFixer steps succeed; on failure the exception
propagates (`Except.error`) while the already-created temporary file stays on disk.
The pH argument is recorded in the ghost trace `phCalls`. -/
def add_hydrogens (repairOk : Bool) (pH : Rat) (s : TaskState) :
    Except String String × TaskState :=
  let fix_name := tempFixName s.fresh
  let s1 : TaskState :=
    { diskCreate s fix_name with fresh := s.fresh + 1, phCalls := s.phCalls ++ [pH] }
  if repairOk then (Except.ok fix_name, s1) else (Except.error "PDBFixer failure", s1)

/-! ## Annotator invoker -/

/-- Outcome of `subprocess.run(["python", "ImmunoPDB.py", ...])`: either the child
process ran to completion with a return code and captured streams, or the call
raised (spawn failure). -/
inductive SubprocOutcome where
  | ran (returncode : Int) (stdout stderr : String)
  | raised (msg : String)
deriving DecidableEq

/-- The output path `run_immunopdb` targets: a fresh "_immuno_output.pdb"
temporary when `use_temp` is set, else the input path with ".pdb" replaced by
"_immuno_output.pdb" (source lines 69-74). -/
def immunoOutPath (fixed_pdb_path : String) (use_temp : Bool) (s : TaskState) : String :=
  if use_temp then tempImmunoName s.fresh
  else pyReplace fixed_pdb_path ".pdb" "_immuno_output.pdb"

/-- Embeds `run_immunopdb` (source lines 59-97).  When `use_temp` is set the output
temporary is created up front (before the `try` block).  The subprocess outcome is
supplied by the oracle; a zero return code means the annotator wrote its output
file.  Logging mirrors the source: the invocation log always gets a "Processing"
line, stdout is appended only under `log_output`, stderr lines additionally go to
the error log.  The function returns the output path only on return code 0 and
returns `none` both on a non-zero exit and when the call raised — the `try/except`
of the source converts any exception into `None`, so the embedding is total. -/
def run_immunopdb (outcome : SubprocOutcome) (fixed_pdb_path : String) (use_temp : Bool)
    (log_output : Bool) (s : TaskState) : Option String × TaskState :=
  let immuno_output_file := immunoOutPath fixed_pdb_path use_temp s
  let s1 : TaskState :=
    if use_temp then { diskCreate s immuno_output_file with fresh := s.fresh + 1 } else s
  match outcome with
  | SubprocOutcome.ran rc out err =>
    let s2 := if rc = 0 then diskCreate s1 immuno_output_file else s1
    let s3 : TaskState := { s2 with immunoLog :=
      s2.immunoLog ++ ["Processing " ++ fixed_pdb_path ++ ":"]
        ++ (if log_output then [out] else [])
        ++ (if err = "" then [] else ["Errors: " ++ err]) }
    let s4 := if err = "" then s3
      else logError s3 ("ImmunoPDB error for " ++ fixed_pdb_path ++ ": " ++ err)
    (if rc = 0 then some immuno_output_file else none, s4)
  | SubprocOutcome.raised m =>
    (none, logError s1 ("Failed to run ImmunoPDB on " ++ fixed_pdb_path ++ ": " ++ m))

/-! ## Per-file task -/

/-- Oracle for the external collaborators of one repeat iteration: whether the
PDBFixer repair succeeds, the subprocess outcome of the annotator, and the values
produced by the feature library (`none` when `calculate_features` raises). -/
structure RepeatOracle where
  repairOk : Bool
  subproc : SubprocOutcome
  patchFeatures : Option (FeatureMap × FeatVal)
deriving DecidableEq

/-- The Python local variables of `process_pdb_file` that live across repeats:
`all_results`, `fixed_pdb_path`, `immuno_output` (source lines 104-109). -/
structure LoopVars where
  all_results : List FeatureMap
  fixed_pdb_path : Option String
  immuno_output : Option String
deriving DecidableEq

/-- The initial values of the loop variables (source lines 104, 108-109). -/
def initVars : LoopVars :=
  { all_results := [], fixed_pdb_path := none, immuno_output := none }

/-- A Python value bound to the `use_temp` parameter.  The parameter's default is
the boolean `False`, but the orchestrator (source line 139) passes the CLI pH
float into this positional slot, so both shapes occur. -/
inductive PyVal where
  | bool (b : Bool)
  | float (q : Rat)
deriving DecidableEq

/-- Python truthiness of such a value (`if use_temp:`): a float is truthy iff
non-zero. -/
def truthy : PyVal → Bool
  | PyVal.bool b => b
  | PyVal.float q => decide (q ≠ 0)

/-- The `try` block of one repeat iteration (source lines 112-120): repair, then
annotate, then compute features.  Returns the updated loop variables, the updated
state, and `some e` when an exception escapes the block (to be caught by the
iteration's `except`).  Variable updates mirror Python assignment order: a repair
failure leaves both variables at their previous values; after a successful repair
`immuno_output` is overwritten by the annotator's result (possibly `none`). -/
def repeatTryBody (o : RepeatOracle) (pdb_file_path : String) (use_temp : Bool) (pH : Rat)
    (v : LoopVars) (s : TaskState) : LoopVars × TaskState × Option String :=
  match add_hydrogens o.repairOk pH s with
  | (Except.error e, s1) => (v, s1, some e)
  | (Except.ok fixName, s1) =>
    let v1 : LoopVars := { v with fixed_pdb_path := some fixName }
    let r := run_immunopdb o.subproc fixName use_temp false s1
    let v2 : LoopVars := { v1 with immuno_output := r.1 }
    match r.1 with
    | some _ =>
      match o.patchFeatures with
      | some pf =>
        ({ v2 with all_results := v2.all_results ++ [calculate_features pf.1 pf.2] }, r.2, none)
      | none => (v2, r.2, some "feature computation failure")
    | none =>
      (v2, logError r.2 ("Skipping feature calculation for " ++ pdb_file_path
        ++ " due to ImmunoPDB failure."), none)

/-- One arm of the `finally` cleanup loop (source lines 126-129):
`if file and os.path.exists(file): os.remove(file)`. -/
def cleanupOne (s : TaskState) : Option String → TaskState
  | none => s
  | some p => if listHas s.disk p then diskRemove s p else s

/-- The `finally` block: delete whichever of `fixed_pdb_path`, `immuno_output`
currently exists. -/
def finallyCleanup (v : LoopVars) (s : TaskState) : TaskState :=
  cleanupOne (cleanupOne s v.fixed_pdb_path) v.immuno_output

/-- Decimal rendering of a natural number (for the iteration count in the
error-log message). -/
def natStr (n : Nat) : String := Nat.repr n

/-- One full repeat iteration of `process_pdb_file` (source lines 111-129):
run the `try` body, catch any exception into an error-log line, then run the
`finally` cleanup.  No exception escapes an iteration. -/
def runRepeat (o : RepeatOracle) (pdb_file_path : String) (i : Nat) (use_temp : Bool)
    (pH : Rat) (v : LoopVars) (s : TaskState) : LoopVars × TaskState :=
  let b := repeatTryBody o pdb_file_path use_temp pH v s
  let s2 := match b.2.2 with
    | some e => logError b.2.1 ("Error processing " ++ pdb_file_path ++ " (Iteration "
        ++ natStr (i + 1) ++ "): " ++ e)
    | none => b.2.1
  (b.1, finallyCleanup b.1 s2)

/-- The `for i in range(repeats)` loop, indexed by the current iteration `i` and
the number of remaining iterations. -/
def taskLoop (oracles : Nat → RepeatOracle) (pdb_file_path : String) (use_temp : Bool)
    (pH : Rat) : Nat → Nat → LoopVars → TaskState → LoopVars × TaskState
  | _, 0, v, s => (v, s)
  | i, Nat.succ n, v, s =>
    let r := runRepeat (oracles i) pdb_file_path i use_temp pH v s
    taskLoop oracles pdb_file_path use_temp pH (i + 1) n r.1 r.2

/-- Embeds the per-file task `process_pdb_file` (source lines 100-131).  The
config refresh `defaults.system_config.update_from_json(...)` touches only
external library state and has no modelled effect.  Returns the single-entry
mapping from the original file path to the list of successful feature mappings,
together with the final worker state. -/
def process_pdb_file (oracles : Nat → RepeatOracle) (pdb_file_path : String)
    (repeats : Nat) (use_temp : PyVal) (pH : Rat) (s : TaskState) :
    (String × List FeatureMap) × TaskState :=
  let r := taskLoop oracles pdb_file_path (truthy use_temp) pH 0 repeats initVars s
  ((pdb_file_path, r.1.all_results), r.2)

/-! ## Orchestrator -/

/-- What `run_processing` produces on its normal path: the collected results list,
the list serialized to the output JSON file (serialized verbatim), the process
exit code, and the final state of each worker task (in submission order). -/
structure RunOutput where
  results : List (String × List FeatureMap)
  outputFile : String
  jsonOut : List (String × List FeatureMap)
  exitCode : Nat
  taskStates : List TaskState
deriving DecidableEq

/-- The task submission of source line 139:
`process_pdb_file.remote(str(pdb), repeats, pH)`.  Only three positional
arguments are passed, so against the signature
`process_pdb_file(pdb_file_path, repeats=1, use_temp=False, pH=7.0)` the CLI pH
float is bound to the `use_temp` parameter and the task's `pH` parameter keeps
its default 7.0.  Each remote task starts from a fresh worker state. -/
def submitTask (oracles : Nat → Nat → RepeatOracle) (repeats : Nat) (pH : Rat)
    (j : Nat) (pdb : String) : (String × List FeatureMap) × TaskState :=
  process_pdb_file (oracles j) pdb repeats (PyVal.float pH) 7 initState

/-- Number of tasks created at source line 139: zero when `get_pdb_files` raises,
because the list comprehension building `tasks` never executes. -/
def submittedTaskCount (fs : FileSystem) (input_path : String) : Nat :=
  match get_pdb_files fs input_path with
  | Except.error _ => 0
  | Except.ok pdb_files => pdb_files.length

/-- Embeds `run_processing` (source lines 134-160).  `get_pdb_files` runs before
the `try` block, so its `ValueError` propagates out of the function and no task is
submitted.  With `use_ray_wait` false, `ray.get(tasks)` returns results in
submission order; with it true, the `ray.wait` loop collects results in the
executor's completion order, supplied here as the index list `order` (a
permutation of the submission indices in any real schedule).  The collected list
is serialized verbatim to the output file and the script finishes with exit code
0; in this model neither collection nor serialization can raise, so the
`except`/`exit(1)` path is unreachable. -/
def run_processing (fs : FileSystem) (oracles : Nat → Nat → RepeatOracle)
    (input_path : String) (repeats : Nat) (pH : Rat) (use_ray_wait : Bool)
    (order : List Nat) (output_file : String) : Except String RunOutput :=
  match get_pdb_files fs input_path with
  | Except.error e => Except.error e
  | Except.ok pdb_files =>
    let res := fun j => (submitTask oracles repeats pH j (pdb_files.getD j "")).1
    let results := if use_ray_wait then order.map res
      else (List.range pdb_files.length).map res
    Except.ok
      { results := results
        outputFile := output_file
        jsonOut := results
        exitCode := 0
        taskStates := (List.range pdb_files.length).map
          (fun j => (submitTask oracles repeats pH j (pdb_files.getD j "")).2) }

/-! ## Spec-level descriptions of the task's behaviour -/

/-- The indices `i, i+1, ..., i+n-1` (the iteration counter of the repeat loop). -/
def idxRange : Nat → Nat → List Nat
  | _, 0 => []
  | i, Nat.succ n => i :: idxRange (i + 1) n

/-- Whether the annotator invocation described by a subprocess outcome fails to
deliver an output path: a non-zero exit or a raised call. -/
def annotFails : SubprocOutcome → Bool
  | SubprocOutcome.ran rc _ _ => decide (rc ≠ 0)
  | SubprocOutcome.raised _ => true

/-- The feature mapping one repeat contributes, read off from its oracle: present
exactly when the repair succeeds, the annotator exits 0, and the feature library
does not raise. -/
def repeatSuccess (o : RepeatOracle) : Option FeatureMap :=
  if o.repairOk then
    match o.subproc with
    | SubprocOutcome.ran rc _ _ =>
      if rc = 0 then
        match o.patchFeatures with
        | some pf => some (calculate_features pf.1 pf.2)
        | none => none
      else none
    | SubprocOutcome.raised _ => none
  else none

/-- The temporary files a task leaks when `use_temp` is truthy, per repeat: the
repair temp of a repeat whose repair raised (allocated before the exception), and
the annotator output temp of a repeat whose annotator failed (allocated before the
subprocess call).  Indexed by the repeat counter, the fresh counter at the start
of the repeat, and the number of remaining repeats. -/
def taskLeaks (oracles : Nat → RepeatOracle) : Nat → Nat → Nat → List String
  | _, _, 0 => []
  | i, f, Nat.succ n =>
    if (oracles i).repairOk then
      (if annotFails (oracles i).subproc then [tempImmunoName (f + 1)] else [])
        ++ taskLeaks oracles (i + 1) (f + 2) n
    else tempFixName f :: taskLeaks oracles (i + 1) (f + 1) n

/-! ## Generated temporary names are fresh and pairwise distinct -/

theorem tagL_length (n : Nat) : (tagL n).length = n := by
  simp [tagL]

theorem tempFixName_inj {a b : Nat} (h : tempFixName a = tempFixName b) : a = b := by
  have hd : fixChars a = fixChars b := congrArg String.data h
  have hl := congrArg List.length hd
  simp [fixChars, tagL] at hl
  exact hl

theorem tempImmunoName_inj {a b : Nat} (h : tempImmunoName a = tempImmunoName b) : a = b := by
  have hd : immunoChars a = immunoChars b := congrArg String.data h
  have hl := congrArg List.length hd
  simp [immunoChars, tagL] at hl
  exact hl

theorem tempFixName_ne_immuno (a b : Nat) : tempFixName a ≠ tempImmunoName b := by
  intro h
  have hd : fixChars a = immunoChars b := congrArg String.data h
  have hc := congrArg (fun l => l.count '_') hd
  simp [fixChars, immunoChars, tagL, List.count_append, List.count_cons,
    List.count_replicate] at hc

/-- Paths that can be on a task's disk after some repeats: generated temporary
names whose fresh index is below the current counter. -/
def isTempLt (n : Nat) (p : String) : Prop :=
  ∃ k, k < n ∧ (p = tempFixName k ∨ p = tempImmunoName k)

theorem isTempLt_mono {m n : Nat} (h : m ≤ n) {p : String} :
    isTempLt m p → isTempLt n p := by
  rintro ⟨k, hk, hp⟩
  exact ⟨k, lt_of_lt_of_le hk h, hp⟩

theorem isTempLt_ne_fix {n m : Nat} {p : String} (h : isTempLt n p) (hnm : n ≤ m) :
    p ≠ tempFixName m := by
  rcases h with ⟨k, hk, hp | hp⟩
  · subst hp
    intro he
    have := tempFixName_inj he
    omega
  · subst hp
    intro he
    exact tempFixName_ne_immuno m k he.symm

theorem isTempLt_ne_immuno {n m : Nat} {p : String} (h : isTempLt n p) (hnm : n ≤ m) :
    p ≠ tempImmunoName m := by
  rcases h with ⟨k, hk, hp | hp⟩
  · subst hp
    exact tempFixName_ne_immuno k m
  · subst hp
    intro he
    have := tempImmunoName_inj he
    omega

/-! ## Disk bookkeeping lemmas -/

theorem listHas_iff {l : List String} {p : String} : listHas l p = true ↔ p ∈ l := by
  induction l with
  | nil => simp [listHas]
  | cons q t ih =>
    by_cases h : q = p
    · subst h
      simp [listHas]
    · have h2 : ¬p = q := fun hh => h hh.symm
      simp [listHas, h, ih, h2]

theorem listHas_false {l : List String} {p : String} (h : p ∉ l) : listHas l p = false := by
  cases hh : listHas l p with
  | false => rfl
  | true => exact absurd (listHas_iff.mp hh) h

theorem filter_ne_of_not_mem {l : List String} {a : String} (h : a ∉ l) :
    l.filter (fun q => decide (q ≠ a)) = l := by
  induction l with
  | nil => rfl
  | cons q t ih =>
    have hq : q ≠ a := fun he => h (he ▸ List.mem_cons_self q t)
    have ht : a ∉ t := fun hm => h (List.mem_cons_of_mem q hm)
    simp only [List.filter_cons]
    rw [if_pos (by simp [hq]), ih ht]

theorem filter_ne_append {l : List String} {a : String} (h : a ∉ l) :
    (l ++ [a]).filter (fun q => decide (q ≠ a)) = l := by
  rw [List.filter_append, filter_ne_of_not_mem h]
  simp

theorem filter_ne_pair {l : List String} {a b : String} (ha : a ∉ l) (hba : b ≠ a) :
    (l ++ [a, b]).filter (fun q => decide (q ≠ a)) = l ++ [b] := by
  rw [List.filter_append, filter_ne_of_not_mem ha]
  simp [hba]

theorem cleanupOne_none (s : TaskState) : cleanupOne s none = s := rfl

theorem cleanupOne_not_mem {s : TaskState} {p : String} (h : p ∉ s.disk) :
    cleanupOne s (some p) = s := by
  simp [cleanupOne, listHas_false h]

theorem diskCreate_not_mem {s : TaskState} {p : String} (h : p ∉ s.disk) :
    diskCreate s p = { s with disk := s.disk ++ [p] } := by
  simp [diskCreate, listHas_false h]

theorem diskCreate_mem {s : TaskState} {p : String} (h : p ∈ s.disk) :
    diskCreate s p = s := by
  simp [diskCreate, listHas_iff.mpr h]

/-! ## The results a task accumulates -/

theorem runRepeat_results (o : RepeatOracle) (pdb : String) (i : Nat) (ut : Bool) (pH : Rat)
    (v : LoopVars) (s : TaskState) :
    (runRepeat o pdb i ut pH v s).1.all_results
      = v.all_results ++ (repeatSuccess o).toList := by
  rcases o with ⟨rok, sub, pf⟩
  cases rok with
  | false => simp [runRepeat, repeatTryBody, add_hydrogens, repeatSuccess]
  | true =>
    cases sub with
    | raised m =>
      simp [runRepeat, repeatTryBody, add_hydrogens, run_immunopdb, repeatSuccess]
    | ran rc out err =>
      by_cases hrc : rc = 0
      · cases pf with
        | none =>
          simp [runRepeat, repeatTryBody, add_hydrogens, run_immunopdb, repeatSuccess, hrc]
        | some pfv =>
          simp [runRepeat, repeatTryBody, add_hydrogens, run_immunopdb, repeatSuccess, hrc]
      · simp [runRepeat, repeatTryBody, add_hydrogens, run_immunopdb, repeatSuccess, hrc]

theorem taskLoop_results (oracles : Nat → RepeatOracle) (pdb : String) (ut : Bool) (pH : Rat) :
    ∀ (n i : Nat) (v : LoopVars) (s : TaskState),
      (taskLoop oracles pdb ut pH i n v s).1.all_results
        = v.all_results ++ (idxRange i n).filterMap (fun k => repeatSuccess (oracles k)) := by
  intro n
  induction n with
  | zero => intro i v s; simp [taskLoop, idxRange]
  | succ n ih =>
    intro i v s
    simp only [taskLoop]
    rw [ih, runRepeat_results]
    cases h : repeatSuccess (oracles i) <;>
      simp [idxRange, List.filterMap_cons, h, List.append_assoc]

/-- Characterization of a per-file task's return value: the single-entry mapping
from the file path to exactly the per-repeat successes, in repeat order. -/
theorem process_pdb_file_results (oracles : Nat → RepeatOracle) (pdb : String) (R : Nat)
    (u : PyVal) (pHv : Rat) (s : TaskState) :
    (process_pdb_file oracles pdb R u pHv s).1
      = (pdb, (idxRange 0 R).filterMap (fun k => repeatSuccess (oracles k))) := by
  simp [process_pdb_file, taskLoop_results, initVars]

theorem idxRange_length (n : Nat) : ∀ i : Nat, (idxRange i n).length = n := by
  induction n with
  | zero => intro i; rfl
  | succ n ih => intro i; simp [idxRange, ih]

theorem mem_idxRange {k : Nat} : ∀ {n i : Nat}, k ∈ idxRange i n → i ≤ k ∧ k < i + n := by
  intro n
  induction n with
  | zero => intro i h; simp [idxRange] at h
  | succ n ih =>
    intro i h
    simp only [idxRange, List.mem_cons] at h
    rcases h with h | h
    · omega
    · have := ih h
      omega

theorem repeatSuccess_none_of_annotFails {o : RepeatOracle}
    (h : annotFails o.subproc = true) : repeatSuccess o = none := by
  rcases o with ⟨rok, sub, pf⟩
  cases sub with
  | raised m => cases rok <;> simp [repeatSuccess]
  | ran rc out err =>
    have hrc : rc ≠ 0 := by simpa [annotFails] using h
    cases rok <;> simp [repeatSuccess, hrc]

theorem repeatSuccess_none_of_step_failure {o : RepeatOracle}
    (h : o.repairOk = false ∨ o.patchFeatures = none) : repeatSuccess o = none := by
  rcases o with ⟨rok, sub, pf⟩
  rcases h with h | h
  · simp at h
    simp [repeatSuccess, h]
  · simp at h
    subst h
    cases sub with
    | raised m => cases rok <;> simp [repeatSuccess]
    | ran rc out err =>
      by_cases hrc : rc = 0 <;> cases rok <;> simp [repeatSuccess, hrc]

theorem hasKey_calculate_features (patch : FeatureMap) (asym : FeatVal) :
    hasKey (calculate_features patch asym) "charge_asym" = true := by
  unfold calculate_features dictSet hasKey
  by_cases h : patch.any (fun kv => decide (kv.1 = "charge_asym")) = true
  · rw [if_pos h]
    rcases List.any_eq_true.mp h with ⟨kv, hmem, hkv⟩
    refine List.any_eq_true.mpr
      ⟨(if kv.1 = "charge_asym" then ("charge_asym", asym) else kv),
        List.mem_map_of_mem _ hmem, ?_⟩
    have hk : kv.1 = "charge_asym" := of_decide_eq_true hkv
    simp [hk]
  · rw [if_neg h]
    simp [List.any_append]

/-! ## Projections of the cleanup step -/

/-- The effect of one `finally` arm on the disk listing alone. -/
def removeIfHas (l : List String) : Option String → List String
  | none => l
  | some p => if p ∈ l then l.filter (fun q => decide (q ≠ p)) else l

theorem cleanupOne_disk (s : TaskState) (o : Option String) :
    (cleanupOne s o).disk = removeIfHas s.disk o := by
  cases o with
  | none => rfl
  | some p =>
    by_cases hp : p ∈ s.disk
    · simp [cleanupOne, removeIfHas, diskRemove, listHas_iff.mpr hp, hp]
    · simp [cleanupOne, removeIfHas, listHas_false hp, hp]

theorem cleanupOne_fresh (s : TaskState) (o : Option String) :
    (cleanupOne s o).fresh = s.fresh := by
  cases o with
  | none => rfl
  | some p =>
    by_cases hp : p ∈ s.disk
    · simp [cleanupOne, diskRemove, listHas_iff.mpr hp]
    · simp [cleanupOne, listHas_false hp]

theorem finallyCleanup_disk (v : LoopVars) (s : TaskState) :
    (finallyCleanup v s).disk
      = removeIfHas (removeIfHas s.disk v.fixed_pdb_path) v.immuno_output := by
  unfold finallyCleanup
  rw [cleanupOne_disk, cleanupOne_disk]

theorem finallyCleanup_fresh (v : LoopVars) (s : TaskState) :
    (finallyCleanup v s).fresh = s.fresh := by
  unfold finallyCleanup
  rw [cleanupOne_fresh, cleanupOne_fresh]

theorem removeIfHas_none (l : List String) : removeIfHas l none = l := rfl

theorem removeIfHas_not_mem {l : List String} {p : String} (h : p ∉ l) :
    removeIfHas l (some p) = l := by
  simp [removeIfHas, h]

theorem removeIfHas_append_one {l : List String} {a : String} (h : a ∉ l) :
    removeIfHas (l ++ [a]) (some a) = l := by
  have : a ∈ l ++ [a] := by simp
  simp only [removeIfHas, if_pos this]
  exact filter_ne_append h

theorem removeIfHas_append_pair {l : List String} {a b : String} (ha : a ∉ l) (hba : b ≠ a) :
    removeIfHas (l ++ [a, b]) (some a) = l ++ [b] := by
  have : a ∈ l ++ [a, b] := by simp
  simp only [removeIfHas, if_pos this]
  exact filter_ne_pair ha hba

/-! ## Projections of `runRepeat` through the body -/

theorem runRepeat_vars (o : RepeatOracle) (pdb : String) (i : Nat) (ut : Bool) (pH : Rat)
    (v : LoopVars) (s : TaskState) :
    (runRepeat o pdb i ut pH v s).1 = (repeatTryBody o pdb ut pH v s).1 := rfl

theorem runRepeat_state_disk (o : RepeatOracle) (pdb : String) (i : Nat) (ut : Bool) (pH : Rat)
    (v : LoopVars) (s : TaskState) :
    (runRepeat o pdb i ut pH v s).2.disk
      = removeIfHas
          (removeIfHas (repeatTryBody o pdb ut pH v s).2.1.disk
            (repeatTryBody o pdb ut pH v s).1.fixed_pdb_path)
          (repeatTryBody o pdb ut pH v s).1.immuno_output := by
  unfold runRepeat
  cases hx : (repeatTryBody o pdb ut pH v s).2.2 <;>
    simp [hx, finallyCleanup_disk, logError]

theorem runRepeat_state_fresh (o : RepeatOracle) (pdb : String) (i : Nat) (ut : Bool) (pH : Rat)
    (v : LoopVars) (s : TaskState) :
    (runRepeat o pdb i ut pH v s).2.fresh = (repeatTryBody o pdb ut pH v s).2.1.fresh := by
  unfold runRepeat
  cases hx : (repeatTryBody o pdb ut pH v s).2.2 <;>
    simp [hx, finallyCleanup_fresh, logError]

/-! ## Projections of `run_immunopdb` in temporary-output mode -/

theorem run_immunopdb_ran_proj (rc : Int) (out err : String) (fp : String) (lo : Bool)
    (t : TaskState) (h : tempImmunoName t.fresh ∉ t.disk) :
    (run_immunopdb (SubprocOutcome.ran rc out err) fp true lo t).1
        = (if rc = 0 then some (tempImmunoName t.fresh) else none)
    ∧ (run_immunopdb (SubprocOutcome.ran rc out err) fp true lo t).2.disk
        = t.disk ++ [tempImmunoName t.fresh]
    ∧ (run_immunopdb (SubprocOutcome.ran rc out err) fp true lo t).2.fresh = t.fresh + 1 := by
  have hlh : listHas (t.disk ++ [tempImmunoName t.fresh]) (tempImmunoName t.fresh) = true :=
    listHas_iff.mpr (by simp)
  by_cases hrc : rc = 0 <;> by_cases herr : err = "" <;>
    simp [run_immunopdb, immunoOutPath, logError, diskCreate_not_mem h, hrc, herr,
      diskCreate, hlh, listHas_false h]

theorem run_immunopdb_raised_proj (m : String) (fp : String) (lo : Bool)
    (t : TaskState) (h : tempImmunoName t.fresh ∉ t.disk) :
    (run_immunopdb (SubprocOutcome.raised m) fp true lo t).1 = none
    ∧ (run_immunopdb (SubprocOutcome.raised m) fp true lo t).2.disk
        = t.disk ++ [tempImmunoName t.fresh]
    ∧ (run_immunopdb (SubprocOutcome.raised m) fp true lo t).2.fresh = t.fresh + 1 := by
  simp [run_immunopdb, immunoOutPath, logError, diskCreate_not_mem h]

/-! ## One repeat: disk evolution and invariant preservation (temporary-output mode) -/

theorem runRepeat_state (o : RepeatOracle) (pdb : String) (i : Nat) (pH : Rat)
    (v : LoopVars) (s : TaskState)
    (hd : ∀ p ∈ s.disk, isTempLt s.fresh p)
    (hfx : ∀ p, v.fixed_pdb_path = some p → p ∉ s.disk ∧ isTempLt s.fresh p)
    (him : ∀ p, v.immuno_output = some p → p ∉ s.disk ∧ isTempLt s.fresh p) :
    (runRepeat o pdb i true pH v s).2.disk
        = s.disk ++ (if o.repairOk then
            (if annotFails o.subproc then [tempImmunoName (s.fresh + 1)] else [])
          else [tempFixName s.fresh])
    ∧ (runRepeat o pdb i true pH v s).2.fresh = s.fresh + (if o.repairOk then 2 else 1)
    ∧ (∀ p ∈ (runRepeat o pdb i true pH v s).2.disk,
        isTempLt ((runRepeat o pdb i true pH v s).2.fresh) p)
    ∧ (∀ p, (runRepeat o pdb i true pH v s).1.fixed_pdb_path = some p →
        p ∉ (runRepeat o pdb i true pH v s).2.disk
          ∧ isTempLt ((runRepeat o pdb i true pH v s).2.fresh) p)
    ∧ (∀ p, (runRepeat o pdb i true pH v s).1.immuno_output = some p →
        p ∉ (runRepeat o pdb i true pH v s).2.disk
          ∧ isTempLt ((runRepeat o pdb i true pH v s).2.fresh) p) := by
  have htfixS : tempFixName s.fresh ∉ s.disk := fun hmem =>
    isTempLt_ne_fix (hd _ hmem) le_rfl rfl
  have htimmS : tempImmunoName (s.fresh + 1) ∉ s.disk := fun hmem =>
    isTempLt_ne_immuno (hd _ hmem) (Nat.le_succ _) rfl
  have htne : tempImmunoName (s.fresh + 1) ≠ tempFixName s.fresh := fun he =>
    tempFixName_ne_immuno s.fresh (s.fresh + 1) he.symm
  have hSA : (diskCreate s (tempFixName s.fresh)).disk = s.disk ++ [tempFixName s.fresh] := by
    rw [diskCreate_not_mem htfixS]
  rcases o with ⟨rok, sub, pf⟩
  cases rok with
  | false =>
    have hb : repeatTryBody ⟨false, sub, pf⟩ pdb true pH v s
        = (v, { diskCreate s (tempFixName s.fresh) with
            fresh := s.fresh + 1, phCalls := s.phCalls ++ [pH] }, some "PDBFixer failure") := by
      simp [repeatTryBody, add_hydrogens]
    have hv1 : removeIfHas (s.disk ++ [tempFixName s.fresh]) v.fixed_pdb_path
        = s.disk ++ [tempFixName s.fresh] := by
      cases hvf : v.fixed_pdb_path with
      | none => rfl
      | some p =>
        rcases hfx p hvf with ⟨hp1, hp2⟩
        refine removeIfHas_not_mem ?_
        intro hmem
        rcases List.mem_append.mp hmem with hms | hmt
        · exact hp1 hms
        · exact isTempLt_ne_fix hp2 le_rfl (List.mem_singleton.mp hmt)
    have hv2 : removeIfHas (s.disk ++ [tempFixName s.fresh]) v.immuno_output
        = s.disk ++ [tempFixName s.fresh] := by
      cases hvf : v.immuno_output with
      | none => rfl
      | some p =>
        rcases him p hvf with ⟨hp1, hp2⟩
        refine removeIfHas_not_mem ?_
        intro hmem
        rcases List.mem_append.mp hmem with hms | hmt
        · exact hp1 hms
        · exact isTempLt_ne_fix hp2 le_rfl (List.mem_singleton.mp hmt)
    simp only [runRepeat_state_disk, runRepeat_state_fresh, runRepeat_vars, hb, hSA, hv1, hv2]
    refine ⟨by simp, by simp, ?_, ?_, ?_⟩
    · intro p hp
      rcases List.mem_append.mp hp with hms | hmt
      · exact isTempLt_mono (Nat.le_succ _) (hd _ hms)
      · exact ⟨s.fresh, Nat.lt_succ_self _, Or.inl (List.mem_singleton.mp hmt)⟩
    · intro p hp
      rcases hfx p hp with ⟨hp1, hp2⟩
      refine ⟨?_, isTempLt_mono (Nat.le_succ _) hp2⟩
      intro hmem
      rcases List.mem_append.mp hmem with hms | hmt
      · exact hp1 hms
      · exact isTempLt_ne_fix hp2 le_rfl (List.mem_singleton.mp hmt)
    · intro p hp
      rcases him p hp with ⟨hp1, hp2⟩
      refine ⟨?_, isTempLt_mono (Nat.le_succ _) hp2⟩
      intro hmem
      rcases List.mem_append.mp hmem with hms | hmt
      · exact hp1 hms
      · exact isTempLt_ne_fix hp2 le_rfl (List.mem_singleton.mp hmt)
  | true =>
    have hSAnot : tempImmunoName (s.fresh + 1) ∉ (diskCreate s (tempFixName s.fresh)).disk := by
      rw [hSA]
      intro hmem
      rcases List.mem_append.mp hmem with hms | hmt
      · exact htimmS hms
      · exact htne (List.mem_singleton.mp hmt)
    cases sub with
    | ran rc out err =>
      have hrp := run_immunopdb_ran_proj rc out err (tempFixName s.fresh) false
        { diskCreate s (tempFixName s.fresh) with
          fresh := s.fresh + 1, phCalls := s.phCalls ++ [pH] } hSAnot
      rcases hrp with ⟨hr1, hr2, hr3⟩
      dsimp only at hr1 hr2 hr3
      rw [hSA] at hr1 hr2 hr3
      by_cases hrc : rc = 0
      · subst hrc
        have hbfix : (repeatTryBody ⟨true, SubprocOutcome.ran 0 out err, pf⟩
            pdb true pH v s).1.fixed_pdb_path = some (tempFixName s.fresh) := by
          cases pf <;> simp [repeatTryBody, add_hydrogens, hr1, hSA]
        have hbimm : (repeatTryBody ⟨true, SubprocOutcome.ran 0 out err, pf⟩
            pdb true pH v s).1.immuno_output = some (tempImmunoName (s.fresh + 1)) := by
          cases pf <;> simp [repeatTryBody, add_hydrogens, hr1, hSA]
        have hbdisk : (repeatTryBody ⟨true, SubprocOutcome.ran 0 out err, pf⟩
            pdb true pH v s).2.1.disk
            = s.disk ++ [tempFixName s.fresh, tempImmunoName (s.fresh + 1)] := by
          cases pf <;>
            simp [repeatTryBody, add_hydrogens, hr1, hr2, hSA, logError,
              List.append_assoc, List.singleton_append]
        have hbfresh : (repeatTryBody ⟨true, SubprocOutcome.ran 0 out err, pf⟩
            pdb true pH v s).2.1.fresh = s.fresh + 1 + 1 := by
          cases pf <;> simp [repeatTryBody, add_hydrogens, hr1, hr3, hSA, logError]
        have hrm1 : removeIfHas
            (s.disk ++ [tempFixName s.fresh, tempImmunoName (s.fresh + 1)])
            (some (tempFixName s.fresh)) = s.disk ++ [tempImmunoName (s.fresh + 1)] :=
          removeIfHas_append_pair htfixS htne
        have hrm2 : removeIfHas (s.disk ++ [tempImmunoName (s.fresh + 1)])
            (some (tempImmunoName (s.fresh + 1))) = s.disk :=
          removeIfHas_append_one htimmS
        simp only [runRepeat_state_disk, runRepeat_state_fresh, runRepeat_vars,
          hbfix, hbimm, hbdisk, hbfresh, hrm1, hrm2]
        refine ⟨by simp [annotFails], by simp, ?_, ?_, ?_⟩
        · intro p hp
          exact isTempLt_mono (by omega) (hd _ hp)
        · intro p hp
          rcases Option.some.inj hp with rfl
          exact ⟨htfixS, ⟨s.fresh, by omega, Or.inl rfl⟩⟩
        · intro p hp
          rcases Option.some.inj hp with rfl
          exact ⟨htimmS, ⟨s.fresh + 1, by omega, Or.inr rfl⟩⟩
      · have hbfix : (repeatTryBody ⟨true, SubprocOutcome.ran rc out err, pf⟩
            pdb true pH v s).1.fixed_pdb_path = some (tempFixName s.fresh) := by
          simp [repeatTryBody, add_hydrogens, hr1, hSA, hrc]
        have hbimm : (repeatTryBody ⟨true, SubprocOutcome.ran rc out err, pf⟩
            pdb true pH v s).1.immuno_output = none := by
          simp [repeatTryBody, add_hydrogens, hr1, hSA, hrc]
        have hbdisk : (repeatTryBody ⟨true, SubprocOutcome.ran rc out err, pf⟩
            pdb true pH v s).2.1.disk
            = s.disk ++ [tempFixName s.fresh, tempImmunoName (s.fresh + 1)] := by
          simp [repeatTryBody, add_hydrogens, hr1, hr2, hSA, hrc, logError,
            List.append_assoc, List.singleton_append]
        have hbfresh : (repeatTryBody ⟨true, SubprocOutcome.ran rc out err, pf⟩
            pdb true pH v s).2.1.fresh = s.fresh + 1 + 1 := by
          simp [repeatTryBody, add_hydrogens, hr1, hr3, hSA, hrc, logError]
        have hrm1 : removeIfHas
            (s.disk ++ [tempFixName s.fresh, tempImmunoName (s.fresh + 1)])
            (some (tempFixName s.fresh)) = s.disk ++ [tempImmunoName (s.fresh + 1)] :=
          removeIfHas_append_pair htfixS htne
        simp only [runRepeat_state_disk, runRepeat_state_fresh, runRepeat_vars,
          hbfix, hbimm, hbdisk, hbfresh, hrm1, removeIfHas_none]
        refine ⟨by simp [annotFails, hrc], by simp, ?_, ?_, ?_⟩
        · intro p hp
          rcases List.mem_append.mp hp with hms | hmt
          · exact isTempLt_mono (by omega) (hd _ hms)
          · exact ⟨s.fresh + 1, by omega, Or.inr (List.mem_singleton.mp hmt)⟩
        · intro p hp
          rcases Option.some.inj hp with rfl
          refine ⟨?_, ⟨s.fresh, by omega, Or.inl rfl⟩⟩
          intro hmem
          rcases List.mem_append.mp hmem with hms | hmt
          · exact htfixS hms
          · exact tempFixName_ne_immuno s.fresh (s.fresh + 1) (List.mem_singleton.mp hmt)
        · intro p hp
          simp at hp
    | raised m =>
      have hrp := run_immunopdb_raised_proj m (tempFixName s.fresh) false
        { diskCreate s (tempFixName s.fresh) with
          fresh := s.fresh + 1, phCalls := s.phCalls ++ [pH] } hSAnot
      rcases hrp with ⟨hr1, hr2, hr3⟩
      dsimp only at hr1 hr2 hr3
      rw [hSA] at hr1 hr2 hr3
      have hbfix : (repeatTryBody ⟨true, SubprocOutcome.raised m, pf⟩
          pdb true pH v s).1.fixed_pdb_path = some (tempFixName s.fresh) := by
        simp [repeatTryBody, add_hydrogens, hr1, hSA]
      have hbimm : (repeatTryBody ⟨true, SubprocOutcome.raised m, pf⟩
          pdb true pH v s).1.immuno_output = none := by
        simp [repeatTryBody, add_hydrogens, hr1, hSA]
      have hbdisk : (repeatTryBody ⟨true, SubprocOutcome.raised m, pf⟩
          pdb true pH v s).2.1.disk
          = s.disk ++ [tempFixName s.fresh, tempImmunoName (s.fresh + 1)] := by
        simp [repeatTryBody, add_hydrogens, hr1, hr2, hSA, logError,
          List.append_assoc, List.singleton_append]
      have hbfresh : (repeatTryBody ⟨true, SubprocOutcome.raised m, pf⟩
          pdb true pH v s).2.1.fresh = s.fresh + 1 + 1 := by
        simp [repeatTryBody, add_hydrogens, hr1, hr3, hSA, logError]
      have hrm1 : removeIfHas
          (s.disk ++ [tempFixName s.fresh, tempImmunoName (s.fresh + 1)])
          (some (tempFixName s.fresh)) = s.disk ++ [tempImmunoName (s.fresh + 1)] :=
        removeIfHas_append_pair htfixS htne
      simp only [runRepeat_state_disk, runRepeat_state_fresh, runRepeat_vars,
        hbfix, hbimm, hbdisk, hbfresh, hrm1, removeIfHas_none]
      refine ⟨by simp [annotFails], by simp, ?_, ?_, ?_⟩
      · intro p hp
        rcases List.mem_append.mp hp with hms | hmt
        · exact isTempLt_mono (by omega) (hd _ hms)
        · exact ⟨s.fresh + 1, by omega, Or.inr (List.mem_singleton.mp hmt)⟩
      · intro p hp
        rcases Option.some.inj hp with rfl
        refine ⟨?_, ⟨s.fresh, by omega, Or.inl rfl⟩⟩
        intro hmem
        rcases List.mem_append.mp hmem with hms | hmt
        · exact htfixS hms
        · exact tempFixName_ne_immuno s.fresh (s.fresh + 1) (List.mem_singleton.mp hmt)
      · intro p hp
        simp at hp

theorem taskLoop_state (oracles : Nat → RepeatOracle) (pdb : String) (pH : Rat) :
    ∀ (n i : Nat) (v : LoopVars) (s : TaskState),
      (∀ p ∈ s.disk, isTempLt s.fresh p) →
      (∀ p, v.fixed_pdb_path = some p → p ∉ s.disk ∧ isTempLt s.fresh p) →
      (∀ p, v.immuno_output = some p → p ∉ s.disk ∧ isTempLt s.fresh p) →
      (taskLoop oracles pdb true pH i n v s).2.disk
        = s.disk ++ taskLeaks oracles i s.fresh n := by
  intro n
  induction n with
  | zero =>
    intro i v s hd hfx him
    simp [taskLoop, taskLeaks]
  | succ n ih =>
    intro i v s hd hfx him
    obtain ⟨h1, h2, h3, h4, h5⟩ := runRepeat_state (oracles i) pdb i pH v s hd hfx him
    simp only [taskLoop]
    rw [ih (i + 1) _ _ h3 h4 h5, h1, h2]
    cases hro : (oracles i).repairOk with
    | false => simp [taskLeaks, hro, List.append_assoc]
    | true => simp [taskLeaks, hro, List.append_assoc]

/-- Characterization of the temporary files a task leaves behind when the
`use_temp` slot holds a truthy value: exactly the temps of failed steps. -/
theorem process_pdb_file_disk (oracles : Nat → RepeatOracle) (pdb : String) (R : Nat)
    (u : PyVal) (pHv : Rat) (hu : truthy u = true) :
    (process_pdb_file oracles pdb R u pHv initState).2.disk = taskLeaks oracles 0 0 R := by
  simp only [process_pdb_file, hu]
  rw [taskLoop_state oracles pdb pHv R 0 initVars initState]
  · simp [initState]
  · intro p hp
    simp [initState] at hp
  · intro p hp
    simp [initVars] at hp
  · intro p hp
    simp [initVars] at hp

/-! ## Auxiliary facts about repeat successes -/

theorem taskLeaks_nil (oracles : Nat → RepeatOracle) :
    ∀ (n i f : Nat),
      (∀ k, k < n → (oracles (i + k)).repairOk = true
        ∧ annotFails (oracles (i + k)).subproc = false) →
      taskLeaks oracles i f n = [] := by
  intro n
  induction n with
  | zero => intro i f _; rfl
  | succ n ih =>
    intro i f h
    have h0 := h 0 (Nat.succ_pos n)
    simp only [Nat.add_zero] at h0
    have htail : ∀ k, k < n → (oracles (i + 1 + k)).repairOk = true
        ∧ annotFails (oracles (i + 1 + k)).subproc = false := by
      intro k hk
      have h2 := h (k + 1) (by omega)
      have he : i + (k + 1) = i + 1 + k := by omega
      rw [he] at h2
      exact h2
    simp [taskLeaks, h0.1, h0.2, ih (i + 1) (f + 2) htail]

theorem repeatSuccess_some {o : RepeatOracle} {m : FeatureMap}
    (h : repeatSuccess o = some m) :
    ∃ pf, o.patchFeatures = some pf ∧ m = calculate_features pf.1 pf.2 := by
  rcases o with ⟨rok, sub, pf⟩
  cases rok with
  | false => simp [repeatSuccess] at h
  | true =>
    cases sub with
    | raised mm => simp [repeatSuccess] at h
    | ran rc out err =>
      by_cases hrc : rc = 0
      · cases pf with
        | none => simp [repeatSuccess, hrc] at h
        | some pfv =>
          simp only [repeatSuccess, hrc, if_true, if_pos] at h
          exact ⟨pfv, rfl, (Option.some.inj h).symm⟩
      · simp [repeatSuccess, hrc] at h

/-! ## Concrete fixtures used by witnesses and counterexamples -/

/-- Oracle of a repeat in which every external step succeeds. -/
def oracleOk : RepeatOracle :=
  { repairOk := true, subproc := SubprocOutcome.ran 0 "" "",
    patchFeatures := some ([("hyd", 1)], 2) }

/-- Oracle of a repeat in which the annotator child process exits with status 1. -/
def oracleAnnotFail : RepeatOracle :=
  { repairOk := true, subproc := SubprocOutcome.ran 1 "" "",
    patchFeatures := some ([("hyd", 1)], 2) }

/-- Oracle of a repeat in which the repair library raises. -/
def oracleRepairFail : RepeatOracle :=
  { repairOk := false, subproc := SubprocOutcome.ran 0 "" "",
    patchFeatures := some ([("hyd", 1)], 2) }

/-- A filesystem holding the single structure file "a.pdb". -/
def fsSingleA : FileSystem :=
  { isDir := fun _ => false, isFile := fun p => decide (p = "a.pdb"), dirFiles := fun _ => [] }

/-- A filesystem whose directory "d" holds two structure files and a text file. -/
def fsDirD : FileSystem :=
  { isDir := fun p => decide (p = "d"), isFile := fun _ => false,
    dirFiles := fun _ => ["x.pdb", "notes.txt", "y.pdb"] }

/-- A filesystem whose directory "d" holds no structure files. -/
def fsEmptyDir : FileSystem :=
  { isDir := fun p => decide (p = "d"), isFile := fun _ => false,
    dirFiles := fun _ => ["notes.txt"] }

/-- A filesystem holding only the text file "a.txt". -/
def fsTxt : FileSystem :=
  { isDir := fun _ => false, isFile := fun p => decide (p = "a.txt"), dirFiles := fun _ => [] }

/-! ## Claims -/

/-- C1: the claim says the pH supplied via --pH is the pH at which the repairer
adds hydrogens in every per-file task.  The orchestrator (source line 139) calls
`process_pdb_file.remote(str(pdb), repeats, pH)`, binding the CLI pH positionally
to the `use_temp` parameter, so `add_hydrogens` always receives the default 7.0.
At CLI pH 5.0 with one file and one repeat, the task's add-hydrogens trace records
7.0 — not the supplied 5.0 — refuting pass-through for every pH other than 7.0. -/
theorem C1_pH_bound_to_use_temp :
    (run_processing fsSingleA (fun _ _ => oracleOk) "a.pdb" 1 5 false []
        "molecular_features.json").toOption.map
      (fun o => o.taskStates.map TaskState.phCalls) = some [[(7 : Rat)]]
    ∧ (5 : Rat) ≠ 7 := by
  refine ⟨rfl, by norm_num⟩

/-- C2 fails on the code: when the repair step raises (after `NamedTemporaryFile`
has already created the repair temp on disk), `fixed_pdb_path` is never assigned,
so the `finally` cleanup does not see the temp and it survives the task.  With one
repeat whose repair raises, the final disk still holds the repair temp. -/
theorem C2_counterexample :
    (process_pdb_file (fun _ => oracleRepairFail) "a.pdb" 1 (PyVal.float 7) 7
        initState).2.disk = [tempFixName 0]
    ∧ (process_pdb_file (fun _ => oracleRepairFail) "a.pdb" 1 (PyVal.float 7) 7
        initState).2.disk ≠ [] := by
  refine ⟨rfl, by decide⟩

/-- C2 (amended): after a per-file task completes in temporary-output mode (the
mode every orchestrator run with non-zero pH effectively uses), the temporary
files remaining on disk are exactly the temps allocated inside failed steps - the
repair temp of a repeat whose repair raised and the annotator output temp of a
repeat whose annotator run failed; every artifact whose path the task's variables
hold (the repaired file of a successful repair, the annotator output of a
successful annotation) is deleted before the next repeat, and when every repair
and every annotator run succeeds no temporary file remains at all. -/
theorem C2_amended_cleanup (oracles : Nat → RepeatOracle) (pdb : String) (R : Nat)
    (u : PyVal) (pHv : Rat) (hu : truthy u = true) :
    (process_pdb_file oracles pdb R u pHv initState).2.disk = taskLeaks oracles 0 0 R
    ∧ ((∀ k, k < R → (oracles k).repairOk = true ∧ annotFails (oracles k).subproc = false) →
        (process_pdb_file oracles pdb R u pHv initState).2.disk = []) := by
  refine ⟨process_pdb_file_disk oracles pdb R u pHv hu, ?_⟩
  intro hall
  rw [process_pdb_file_disk oracles pdb R u pHv hu]
  exact taskLeaks_nil oracles R 0 0 (fun k hk => by simpa using hall k hk)

theorem C2_amended_cleanup_witness :
    truthy (PyVal.float 7) = true
    ∧ (process_pdb_file (fun _ => oracleRepairFail) "a.pdb" 2 (PyVal.float 7) 7
        initState).2.disk = taskLeaks (fun _ => oracleRepairFail) 0 0 2 :=
  ⟨by decide,
    (C2_amended_cleanup (fun _ => oracleRepairFail) "a.pdb" 2 (PyVal.float 7) 7 (by decide)).1⟩

/-- C3: the annotator invoker returns the target output path exactly when the
child process ran and exited with status 0; on a non-zero exit and on a raised
call it returns `none`.  The source wraps the call and the log writing in
`try/except` returning `None`, which the embedding reflects by being a total
function into `Option` — no exception reaches the caller. -/
theorem C3_annotator_result (outcome : SubprocOutcome) (fp : String) (ut lo : Bool)
    (s : TaskState) :
    (run_immunopdb outcome fp ut lo s).1
      = match outcome with
        | SubprocOutcome.ran rc _ _ =>
          if rc = 0 then some (immunoOutPath fp ut s) else none
        | SubprocOutcome.raised _ => none := by
  cases outcome with
  | ran rc out err =>
    by_cases hrc : rc = 0 <;> by_cases herr : err = "" <;>
      simp [run_immunopdb, hrc, herr]
  | raised m => simp [run_immunopdb]

/-- C4: when the annotator yields the absent-result signal on every repeat, no
repeat appends a feature mapping, so the task returns the single-entry mapping
from the file path to the empty list; the per-repeat `try/except` catches every
modelled exception, so the task returns normally. -/
theorem C4_all_annotator_failures (oracles : Nat → RepeatOracle) (pdb : String) (R : Nat)
    (u : PyVal) (pHv : Rat)
    (hA : ∀ i, i < R → annotFails (oracles i).subproc = true) :
    (process_pdb_file oracles pdb R u pHv initState).1 = (pdb, []) := by
  rw [process_pdb_file_results]
  have hnil : (idxRange 0 R).filterMap (fun k => repeatSuccess (oracles k)) = [] := by
    apply List.filterMap_eq_nil_iff.mpr
    intro k hk
    have hb := mem_idxRange hk
    exact repeatSuccess_none_of_annotFails (hA k (by omega))
  rw [hnil]

theorem C4_all_annotator_failures_witness :
    (∀ i, i < 2 → annotFails ((fun _ => oracleAnnotFail) i).subproc = true)
    ∧ (process_pdb_file (fun _ => oracleAnnotFail) "a.pdb" 2 (PyVal.float 7) 7
        initState).1 = ("a.pdb", []) :=
  ⟨by decide,
    C4_all_annotator_failures (fun _ => oracleAnnotFail) "a.pdb" 2 (PyVal.float 7) 7 (by decide)⟩

/-- C5: for a path that is neither a directory nor an existing ".pdb" file, the
resolver raises the invalid-input ValueError; `run_processing` calls the resolver
before its `try` block and before the `tasks` comprehension, so the error
propagates unchanged and zero tasks are submitted. -/
theorem C5_invalid_input (fs : FileSystem) (p : String)
    (hD : fs.isDir p = false)
    (hF : ¬(fs.isFile p = true ∧ pathSuffix p = ".pdb")) :
    get_pdb_files fs p = Except.error invalidInputMsg
    ∧ submittedTaskCount fs p = 0
    ∧ ∀ (oracles : Nat → Nat → RepeatOracle) (R : Nat) (pHv : Rat) (w : Bool)
        (ord : List Nat) (outF : String),
        run_processing fs oracles p R pHv w ord outF = Except.error invalidInputMsg := by
  have hg : get_pdb_files fs p = Except.error invalidInputMsg := by
    simp [get_pdb_files, hD, hF]
  refine ⟨hg, by simp [submittedTaskCount, hg], ?_⟩
  intro oracles R pHv w ord outF
  simp [run_processing, hg]

theorem C5_invalid_input_witness :
    fsTxt.isDir "a.txt" = false
    ∧ ¬(fsTxt.isFile "a.txt" = true ∧ pathSuffix "a.txt" = ".pdb")
    ∧ get_pdb_files fsTxt "a.txt" = Except.error invalidInputMsg := by
  refine ⟨by decide, by decide, (C5_invalid_input fsTxt "a.txt" (by decide) (by decide)).1⟩

/-- C6: for an existing file whose pathlib suffix is ".pdb", the resolver returns
the one-element list holding that path unchanged. -/
theorem C6_single_file (fs : FileSystem) (p : String)
    (hD : fs.isDir p = false) (hF : fs.isFile p = true) (hS : pathSuffix p = ".pdb") :
    get_pdb_files fs p = Except.ok [p] := by
  simp [get_pdb_files, hD, hF, hS]

theorem C6_single_file_witness :
    fsSingleA.isDir "a.pdb" = false
    ∧ fsSingleA.isFile "a.pdb" = true
    ∧ pathSuffix "a.pdb" = ".pdb"
    ∧ get_pdb_files fsSingleA "a.pdb" = Except.ok ["a.pdb"] := by
  refine ⟨by decide, by decide, by decide,
    C6_single_file fsSingleA "a.pdb" (by decide) (by decide) (by decide)⟩

/-- C7: for R ≥ 1 repeats the per-file task returns the single-entry mapping from
the original file path to a list of at most R feature mappings, and every mapping
in the list carries the charge-asymmetry key, because `calculate_features` always
stores `charge_asym`. -/
theorem C7_result_shape (oracles : Nat → RepeatOracle) (pdb : String) (R : Nat)
    (u : PyVal) (pHv : Rat) (hR : 1 ≤ R) :
    (process_pdb_file oracles pdb R u pHv initState).1.1 = pdb
    ∧ (process_pdb_file oracles pdb R u pHv initState).1.2.length ≤ R
    ∧ ∀ m ∈ (process_pdb_file oracles pdb R u pHv initState).1.2,
        hasKey m "charge_asym" = true := by
  rw [process_pdb_file_results]
  refine ⟨rfl, ?_, ?_⟩
  · calc ((idxRange 0 R).filterMap fun k => repeatSuccess (oracles k)).length
        ≤ (idxRange 0 R).length := List.length_filterMap_le _ _
      _ = R := idxRange_length R 0
  · intro m hm
    rcases List.mem_filterMap.mp hm with ⟨k, _, hsk⟩
    rcases repeatSuccess_some hsk with ⟨pfv, _, rfl⟩
    exact hasKey_calculate_features pfv.1 pfv.2

theorem C7_result_shape_witness :
    1 ≤ 2
    ∧ (process_pdb_file (fun _ => oracleOk) "a.pdb" 2 (PyVal.float 7) 7 initState).1.1
        = "a.pdb"
    ∧ (process_pdb_file (fun _ => oracleOk) "a.pdb" 2 (PyVal.float 7) 7 initState).1.2.length
        ≤ 2
    ∧ ∀ m ∈ (process_pdb_file (fun _ => oracleOk) "a.pdb" 2 (PyVal.float 7) 7 initState).1.2,
        hasKey m "charge_asym" = true := by
  have h := C7_result_shape (fun _ => oracleOk) "a.pdb" 2 (PyVal.float 7) 7 (by decide)
  exact ⟨by decide, h.1, h.2.1, h.2.2⟩

/-- C8: a repair-step exception (or a feature-computation exception) in repeat i
is caught at the per-repeat level: that repeat contributes no entry
(`repeatSuccess` is `none`), the task still returns exactly the successes of all
repeats, and — whatever any task's oracles do — the blocking orchestrator obtains
one result per resolved file, so other files' tasks are unaffected. -/
theorem C8_repeat_failure_isolated (oracles : Nat → RepeatOracle) (pdb : String)
    (R i : Nat) (u : PyVal) (pHv : Rat) (hiR : i < R)
    (hfail : (oracles i).repairOk = false ∨ (oracles i).patchFeatures = none) :
    repeatSuccess (oracles i) = none
    ∧ (process_pdb_file oracles pdb R u pHv initState).1.2
        = (idxRange 0 R).filterMap (fun k => repeatSuccess (oracles k))
    ∧ ∀ (fs : FileSystem) (oraclesAll : Nat → Nat → RepeatOracle) (inp : String)
        (ord : List Nat) (outF : String),
        (run_processing fs oraclesAll inp R pHv false ord outF).toOption.map
            (fun o => o.results.length)
          = (get_pdb_files fs inp).toOption.map List.length := by
  refine ⟨repeatSuccess_none_of_step_failure hfail, ?_, ?_⟩
  · rw [process_pdb_file_results]
  · intro fs oraclesAll inp ord outF
    cases hg : get_pdb_files fs inp with
    | error e => simp [run_processing, hg, Except.toOption]
    | ok files => simp [run_processing, hg, Except.toOption]

theorem C8_repeat_failure_isolated_witness :
    0 < 2
    ∧ ((fun j => if j = 0 then oracleRepairFail else oracleOk) 0).repairOk = false
    ∧ repeatSuccess ((fun j => if j = 0 then oracleRepairFail else oracleOk) 0) = none
    ∧ (process_pdb_file (fun j => if j = 0 then oracleRepairFail else oracleOk) "a.pdb" 2
          (PyVal.float 7) 7 initState).1.2
        = (idxRange 0 2).filterMap
            (fun k => repeatSuccess ((fun j => if j = 0 then oracleRepairFail else oracleOk) k)) := by
  have h := C8_repeat_failure_isolated (fun j => if j = 0 then oracleRepairFail else oracleOk)
    "a.pdb" 2 0 (PyVal.float 7) 7 (by decide) (Or.inl (by decide))
  exact ⟨by decide, by decide, h.1, h.2.1⟩

/-- C9: for the same per-task results, the `ray.wait` collection loop (whose
completion order is any permutation of the submission indices) and the single
blocking `ray.get` produce permutations of one another's results lists, hence the
same serialized JSON array up to element order. -/
theorem C9_collection_modes (fs : FileSystem) (oracles : Nat → Nat → RepeatOracle)
    (inp : String) (R : Nat) (pHv : Rat) (ord : List Nat) (outF : String)
    (files : List String)
    (hfiles : get_pdb_files fs inp = Except.ok files)
    (hperm : List.Perm ord (List.range files.length)) :
    ∃ outW outB,
      run_processing fs oracles inp R pHv true ord outF = Except.ok outW
      ∧ run_processing fs oracles inp R pHv false ord outF = Except.ok outB
      ∧ List.Perm outW.results outB.results
      ∧ List.Perm outW.jsonOut outB.jsonOut := by
  simp only [run_processing, hfiles]
  exact ⟨_, _, rfl, rfl, hperm.map _, hperm.map _⟩

theorem C9_collection_modes_witness :
    get_pdb_files fsDirD "d" = Except.ok ["d/x.pdb", "d/y.pdb"]
    ∧ List.Perm [1, 0] (List.range 2)
    ∧ ∃ outW outB,
        run_processing fsDirD (fun _ _ => oracleOk) "d" 1 7 true [1, 0] "out.json"
            = Except.ok outW
        ∧ run_processing fsDirD (fun _ _ => oracleOk) "d" 1 7 false [1, 0] "out.json"
            = Except.ok outB
        ∧ List.Perm outW.results outB.results
        ∧ List.Perm outW.jsonOut outB.jsonOut := by
  refine ⟨rfl, by decide, ?_⟩
  exact C9_collection_modes fsDirD (fun _ _ => oracleOk) "d" 1 7 [1, 0] "out.json"
    ["d/x.pdb", "d/y.pdb"] rfl (by decide)

/-- C10: for an existing directory with no ".pdb" children the resolver returns
the empty list without raising, the orchestrator submits zero tasks, writes the
empty JSON array to the output file, and the script finishes with exit code 0
(the empty completion order is the only one for zero tasks, so both collection
modes are covered). -/
theorem C10_empty_directory (fs : FileSystem) (p : String)
    (hD : fs.isDir p = true)
    (hnone : (fs.dirFiles p).filter globPdbMatch = []) :
    get_pdb_files fs p = Except.ok []
    ∧ submittedTaskCount fs p = 0
    ∧ ∀ (oracles : Nat → Nat → RepeatOracle) (R : Nat) (pHv : Rat) (w : Bool)
        (outF : String),
        run_processing fs oracles p R pHv w [] outF
          = Except.ok
              { results := []
                outputFile := outF
                jsonOut := []
                exitCode := 0
                taskStates := [] } := by
  have hg : get_pdb_files fs p = Except.ok [] := by
    simp [get_pdb_files, hD, hnone]
  refine ⟨hg, by simp [submittedTaskCount, hg], ?_⟩
  intro oracles R pHv w outF
  cases w <;> simp [run_processing, hg]

theorem C10_empty_directory_witness :
    fsEmptyDir.isDir "d" = true
    ∧ (fsEmptyDir.dirFiles "d").filter globPdbMatch = []
    ∧ get_pdb_files fsEmptyDir "d" = Except.ok [] := by
  refine ⟨by decide, by decide, (C10_empty_directory fsEmptyDir "d" (by decide) (by decide)).1⟩

theorem C3_annotator_result_witness :
    (run_immunopdb (SubprocOutcome.ran 0 "" "") "f.pdb" true false initState).1
      = some (immunoOutPath "f.pdb" true initState) := by
  have h := C3_annotator_result (SubprocOutcome.ran 0 "" "") "f.pdb" true false initState
  simpa using h
